import Mathlib

/-!
Verification of the WaveScout repository's FST-reader specification.

The repository's `src/` tree contains only the C++ test harness
(`src/libfst/test_fst_reader.cpp`) and build-configuration stub headers;
the FST reader itself (`fstapi`) is an external library that is not part
of the sources.  Following the specification, the reader-side data model
and operations below are therefore modelled from the spec's words
(sections 3-8 of spec.md), while the test-harness logic (`test_fst_reader`,
the hierarchy-depth loop) is embedded directly from the C++ source.
-/

/-- Modelled from the spec: a Handle is a "stable integer identifier for one
variable/signal", "monotonic integer, 1-based". -/
abbrev Handle := Nat

/-- Modelled from the spec: simulation time values (uint64 in the API). -/
abbrev Time := Nat

/-- Modelled from the spec: Variable metadata of a HierarchyNode — "Variable
has name, type enum, direction enum, bit-length, and a unique Handle".
Type and direction enums are irrelevant to every claim and elided. -/
structure Variable where
  name : String
  bitLength : Nat
  handle : Handle
deriving DecidableEq

/-- Modelled from the spec: "HierarchyNode: tagged variant
{Scope, Variable, Upscope, AttributeBegin, AttributeEnd}". -/
inductive HierTok where
  | scope (name : String)
  | var (v : Variable)
  | upscope
  | attrBegin
  | attrEnd
deriving DecidableEq

/-- Modelled from the spec: "ValueChangeRecord: (time, Handle, raw value
bytes with encoding tag)". -/
structure VCRec where
  time : Nat
  handle : Nat
  value : String
deriving DecidableEq

/-- Modelled from the spec: a Block is "a compressed, time-bounded chunk of
value-change records".  `goodCount = some n` models a truncated/corrupt
payload from which only the first `n` records are decodable;
`goodCount = none` is an intact block. -/
structure Block where
  records : List VCRec
  goodCount : Option Nat
deriving DecidableEq

/-- Modelled from the spec: the on-disk file contents after header parse —
magic/version header with start and end time, hierarchy token stream,
and the sequence of value-change blocks. -/
structure FstFile where
  startTime : Time
  endTime : Time
  hier : List HierTok
  blocks : List Block
deriving DecidableEq

/-- Modelled from the spec: the error taxonomy of section 7. -/
inductive FstError where
  | fileNotFound
  | corruptHeader
  | corruptBlock
  | unknownHandle
  | noValueBefore (t : Int)
  | sessionClosed
deriving DecidableEq

/-- The list of declared variables, in file order (from the hierarchy
token stream). -/
def varsOf (hier : List HierTok) : List Variable :=
  hier.filterMap fun t =>
    match t with
    | .var v => some v
    | _ => none

/-- All declared handles, in file order. -/
def handleList (f : FstFile) : List Handle :=
  (varsOf f.hier).map (·.handle)

/-- Modelled from the spec: `maxHandle()` — the largest declared handle. -/
def maxHandle (f : FstFile) : Nat :=
  (handleList f).foldr max 0

def isScopeTok : HierTok → Bool
  | .scope _ => true
  | _ => false

def isVarTok : HierTok → Bool
  | .var _ => true
  | _ => false

def isUpscopeTok : HierTok → Bool
  | .upscope => true
  | _ => false

/-- Raw value-change records of the file, block by block (including any
that a damaged payload would make undecodable). -/
def allRecords (f : FstFile) : List VCRec :=
  (f.blocks.map (·.records)).flatten

/-- Modelled from the spec: the invariant "Handles are dense integers in
[1, maxHandle]", checked during header parse. -/
def handlesDense (f : FstFile) : Bool :=
  ((List.range (maxHandle f)).all fun i => decide ((i + 1) ∈ handleList f))
    && ((handleList f).all fun h => decide (1 ≤ h))

/-- Modelled from the spec: the invariants "every ValueChangeRecord's Handle
exists in the Handle→Variable index" and "if a file has any value-change
record its time lies in [startTime, endTime]", checked at open. -/
def recordsOK (f : FstFile) : Bool :=
  f.blocks.all fun b =>
    b.records.all fun r =>
      decide (f.startTime ≤ r.time) && decide (r.time ≤ f.endTime)
        && decide (r.handle ∈ handleList f)

/-- Modelled from the spec: the hierarchy token stream must parse "into a
tree" via scope-name stacking, so scope and upscope markers must match. -/
def hierBalanced (f : FstFile) : Bool :=
  decide (f.hier.countP isScopeTok = f.hier.countP isUpscopeTok)

/-- Modelled from the spec: Reader Session state — the parsed file plus the
internal hierarchy-iteration cursor. -/
structure Session where
  file : FstFile
  hierCursor : Nat
deriving DecidableEq

/-- Modelled from the spec: `open(path) -> Session | Error(CorruptHeader)`.
"end_time ≥ start_time always (file is rejected or treated as degenerate
otherwise)"; a file violating the section-3 invariants is rejected with
`CorruptHeader`. -/
def openFile (f : FstFile) : Except FstError Session :=
  if decide (f.startTime ≤ f.endTime) && handlesDense f && recordsOK f
      && hierBalanced f then
    .ok ⟨f, 0⟩
  else
    .error .corruptHeader

/-- Modelled from the spec: metadata accessor `getStartTime`. -/
def getStartTime (s : Session) : Nat := s.file.startTime

/-- Modelled from the spec: metadata accessor `getEndTime`. -/
def getEndTime (s : Session) : Nat := s.file.endTime

/-- Modelled from the spec: metadata accessor `varCount` (header metadata
count of declared variables). -/
def varCount (s : Session) : Nat := s.file.hier.countP isVarTok

/-- Modelled from the spec: metadata accessor `scopeCount`. -/
def scopeCount (s : Session) : Nat := s.file.hier.countP isScopeTok

/-- A demonstration file used by the scenario claims: one scope, a single
variable (handle 1) changing at times {0, 5, 10} to values "0", "1", "0". -/
def demoFile5 : FstFile :=
  { startTime := 0
    endTime := 10
    hier := [.scope "top", .var ⟨"sig", 1, 1⟩, .upscope]
    blocks := [⟨[⟨0, 1, "0"⟩, ⟨5, 1, "1"⟩, ⟨10, 1, "0"⟩], none⟩] }

/-- The session produced by opening `demoFile5`. -/
def demoSession5 : Session := ⟨demoFile5, 0⟩

example : openFile demoFile5 = .ok demoSession5 := by rfl

/-- Claim C1: for every valid FST file opened by the reader,
endTime ≥ startTime holds, and every value-change record's time lies in
the closed interval [startTime, endTime]. -/
theorem fst_time_range_invariant (f : FstFile) (s : Session)
    (hopen : openFile f = .ok s) :
    f.startTime ≤ f.endTime ∧
      ∀ r ∈ allRecords f, f.startTime ≤ r.time ∧ r.time ≤ f.endTime := by
  unfold openFile at hopen
  by_cases hc : (decide (f.startTime ≤ f.endTime) && handlesDense f
      && recordsOK f && hierBalanced f) = true
  · simp only [hc, if_true] at hopen
    have h1 : decide (f.startTime ≤ f.endTime) = true := by
      simp only [Bool.and_eq_true] at hc; exact hc.1.1.1
    have h2 : recordsOK f = true := by
      simp only [Bool.and_eq_true] at hc; exact hc.1.2
    refine ⟨of_decide_eq_true h1, ?_⟩
    intro r hr
    unfold allRecords at hr
    simp only [List.mem_flatten, List.mem_map] at hr
    obtain ⟨l, ⟨b, hb, rfl⟩, hrb⟩ := hr
    unfold recordsOK at h2
    rw [List.all_eq_true] at h2
    have := h2 b hb
    rw [List.all_eq_true] at this
    have := this r hrb
    simp only [Bool.and_eq_true, decide_eq_true_eq] at this
    exact ⟨this.1.1, this.1.2⟩
  · simp only [hc, if_false] at hopen
    cases hopen

/-- Witness for C1 at the concrete demonstration file. -/
theorem fst_time_range_invariant_witness :
    demoFile5.startTime ≤ demoFile5.endTime ∧
      ∀ r ∈ allRecords demoFile5,
        demoFile5.startTime ≤ r.time ∧ r.time ≤ demoFile5.endTime :=
  fst_time_range_invariant demoFile5 demoSession5 (by rfl)

/-- Modelled from the spec: `getVariable(handle) -> Variable |
Error(UnknownHandle)`; a Handle outside [1, maxHandle] is "returned as
error, never a crash". -/
def getVariable (s : Session) (h : Handle) : Except FstError Variable :=
  if decide (1 ≤ h) && decide (h ≤ maxHandle s.file) then
    match (varsOf s.file.hier).find? (fun v => decide (v.handle = h)) with
    | some v => .ok v
    | none => .error .unknownHandle
  else
    .error .unknownHandle

/-- Every member of a list of naturals is bounded by the fold of `max`. -/
theorem le_foldr_max {l : List Nat} {h : Nat} (hm : h ∈ l) :
    h ≤ l.foldr max 0 := by
  induction l with
  | nil => cases hm
  | cons a t ih =>
    rcases List.mem_cons.mp hm with rfl | hm'
    · exact le_max_left _ _
    · exact le_trans (ih hm') (le_max_right _ _)

/-- Destructuring a successful `openFile`: the session starts at cursor 0
and every header-validation check passed. -/
theorem openFile_ok {f : FstFile} {s : Session} (hopen : openFile f = .ok s) :
    s = ⟨f, 0⟩ ∧ f.startTime ≤ f.endTime ∧ handlesDense f = true
      ∧ recordsOK f = true ∧ hierBalanced f = true := by
  unfold openFile at hopen
  by_cases hc : (decide (f.startTime ≤ f.endTime) && handlesDense f
      && recordsOK f && hierBalanced f) = true
  · simp only [hc, if_true, Except.ok.injEq] at hopen
    simp only [Bool.and_eq_true, decide_eq_true_eq] at hc
    exact ⟨hopen.symm, hc.1.1.1, hc.1.1.2, hc.1.2, hc.2⟩
  · simp only [hc, if_false] at hopen
    cases hopen

/-- Claim C3: for every opened file, `getVariable h` succeeds for every
handle in {1, ..., maxHandle} and returns Error(UnknownHandle) for
handle 0 and for maxHandle + 1. -/
theorem getVariable_handle_space (f : FstFile) (s : Session)
    (hopen : openFile f = .ok s) :
    (∀ h : Nat, 1 ≤ h → h ≤ maxHandle f → ∃ v, getVariable s h = .ok v) ∧
      getVariable s 0 = .error .unknownHandle ∧
      getVariable s (maxHandle f + 1) = .error .unknownHandle := by
  obtain ⟨rfl, -, hdense, -, -⟩ := openFile_ok hopen
  refine ⟨?_, ?_, ?_⟩
  · intro h h1 h2
    unfold handlesDense at hdense
    rw [Bool.and_eq_true] at hdense
    have hmem : h ∈ handleList f := by
      have hall := (List.all_eq_true.mp hdense.1) (h - 1)
        (List.mem_range.mpr (by omega))
      rw [decide_eq_true_eq] at hall
      have he : h - 1 + 1 = h := by omega
      rwa [he] at hall
    rw [handleList, List.mem_map] at hmem
    obtain ⟨v, hv, hvh⟩ := hmem
    have hfind : ((varsOf f.hier).find? fun v => decide (v.handle = h)).isSome := by
      rw [List.find?_isSome]
      exact ⟨v, hv, by simpa using hvh⟩
    obtain ⟨w, hw⟩ := Option.isSome_iff_exists.mp hfind
    refine ⟨w, ?_⟩
    unfold getVariable
    have hg : (decide (1 ≤ h) && decide (h ≤ maxHandle (⟨f, 0⟩ : Session).file))
        = true := by
      simp only [Bool.and_eq_true, decide_eq_true_eq]
      exact ⟨h1, h2⟩
    rw [hg, if_pos rfl, hw]
  · unfold getVariable
    simp
  · unfold getVariable
    have hg : ¬ (maxHandle (⟨f, 0⟩ : Session).file + 1
        ≤ maxHandle (⟨f, 0⟩ : Session).file) := by omega
    simp [hg]

/-- Witness for C3 at the concrete demonstration file. -/
theorem getVariable_handle_space_witness :
    (∀ h : Nat, 1 ≤ h → h ≤ maxHandle demoFile5 →
        ∃ v, getVariable demoSession5 h = .ok v) ∧
      getVariable demoSession5 0 = .error .unknownHandle ∧
      getVariable demoSession5 (maxHandle demoFile5 + 1)
        = .error .unknownHandle :=
  getVariable_handle_space demoFile5 demoSession5 (by rfl)

/-- Modelled from the spec: `decode(blockBytes, processMask)` failure mode —
"truncated/corrupt block → Error(CorruptBlock), decoding stops at the last
good record".  Returns the decodable records together with the error, if
any. -/
def decodeBlock (b : Block) : List VCRec × Option FstError :=
  match b.goodCount with
  | none => (b.records, none)
  | some n => (b.records.take n, some .corruptBlock)

/-- All records decodable from the file's blocks, in block order. -/
def decodedRecords (f : FstFile) : List VCRec :=
  (f.blocks.map fun b => (decodeBlock b).1).flatten

/-- Modelled from the spec: delivery order — "time-ascending ... and for
equal timestamps, delivery order follows ascending Handle". -/
def recLE (a b : VCRec) : Prop :=
  a.time < b.time ∨ (a.time = b.time ∧ a.handle ≤ b.handle)

instance : DecidableRel recLE := fun a b =>
  decidable_of_iff (a.time < b.time ∨ (a.time = b.time ∧ a.handle ≤ b.handle))
    Iff.rfl

instance : IsTotal VCRec recLE :=
  ⟨by intro a b; unfold recLE; omega⟩

instance : IsTrans VCRec recLE :=
  ⟨by intro a b c; unfold recLE; omega⟩

/-- Modelled from the spec: ProcessMask — "set of Handles the caller
currently wants decoded". -/
def ProcessMask := Handle → Bool

/-- Modelled from the spec: `setProcessMaskAll` — the full mask. -/
def maskAll : ProcessMask := fun _ => true

/-- A mask selecting the single Handle `h`. -/
def maskOnly (h : Handle) : ProcessMask := fun x => decide (x = h)

/-- Modelled from the spec: `iterateBlocks` — records whose Handle is
outside the mask are skipped; delivery is time-ascending with equal times
in ascending Handle order, and deterministic (a pure function of the
session and mask). -/
def iterBlocks (s : Session) (mask : ProcessMask) : List VCRec :=
  List.insertionSort recLE
    ((decodedRecords s.file).filter fun r => mask r.handle)

/-- Claim C2: every full value-change iteration delivers records in
time-ascending order, with equal-time records in ascending Handle order
(the delivery is deterministic: `iterBlocks` is a pure function). -/
theorem iter_order_time_then_handle (f : FstFile) (s : Session)
    (hopen : openFile f = .ok s) (mask : ProcessMask) :
    List.Pairwise
      (fun r1 r2 => r1.time < r2.time ∨
        (r1.time = r2.time ∧ r1.handle ≤ r2.handle))
      (iterBlocks s mask) :=
  List.sorted_insertionSort recLE
    ((decodedRecords s.file).filter fun r => mask r.handle)

/-- Witness for C2 at the concrete demonstration file with the full mask. -/
theorem iter_order_time_then_handle_witness :
    List.Pairwise
      (fun r1 r2 => r1.time < r2.time ∨
        (r1.time = r2.time ∧ r1.handle ≤ r2.handle))
      (iterBlocks demoSession5 maskAll) :=
  iter_order_time_then_handle demoFile5 demoSession5 (by rfl) maskAll

/-- Claim C4: iterating with mask = {h} emits only records whose Handle is
h, and each emitted record also occurs in the full-mask iteration (subset
by content). -/
theorem single_mask_subset_of_full (f : FstFile) (s : Session)
    (hopen : openFile f = .ok s) (h : Handle) :
    (∀ r ∈ iterBlocks s (maskOnly h), r.handle = h) ∧
      ∀ r ∈ iterBlocks s (maskOnly h), r ∈ iterBlocks s maskAll := by
  have hperm1 := List.perm_insertionSort recLE
    ((decodedRecords s.file).filter fun r => maskOnly h r.handle)
  have hperm2 := List.perm_insertionSort recLE
    ((decodedRecords s.file).filter fun r => maskAll r.handle)
  constructor
  · intro r hr
    have hm : r ∈ (decodedRecords s.file).filter fun r => maskOnly h r.handle :=
      hperm1.mem_iff.mp hr
    have := (List.mem_filter.mp hm).2
    simpa [maskOnly] using this
  · intro r hr
    have hm : r ∈ (decodedRecords s.file).filter fun r => maskOnly h r.handle :=
      hperm1.mem_iff.mp hr
    have hd : r ∈ decodedRecords s.file := (List.mem_filter.mp hm).1
    apply hperm2.mem_iff.mpr
    rw [List.mem_filter]
    exact ⟨hd, rfl⟩

/-- Witness for C4 at the concrete demonstration file and Handle 1. -/
theorem single_mask_subset_of_full_witness :
    (∀ r ∈ iterBlocks demoSession5 (maskOnly 1), r.handle = 1) ∧
      ∀ r ∈ iterBlocks demoSession5 (maskOnly 1),
        r ∈ iterBlocks demoSession5 maskAll :=
  single_mask_subset_of_full demoFile5 demoSession5 (by rfl) 1

/-- Modelled from the spec: an element of the iteration's observable
output — either an emitted ValueChangeRecord or a signalled error. -/
inductive IterEvent where
  | emit (r : VCRec)
  | fail (e : FstError)
deriving DecidableEq

/-- Modelled from the spec: one block's contribution to the event stream —
its decodable records in order, followed by `Error(CorruptBlock)` when the
payload is truncated/corrupt. -/
def blockEvents (b : Block) : List IterEvent :=
  ((decodeBlock b).1.map IterEvent.emit) ++
    (match (decodeBlock b).2 with
     | some e => [IterEvent.fail e]
     | none => [])

/-- Modelled from the spec: the full iteration event stream — "subsequent
blocks still attempted" after a corrupt block, so every block contributes
in order. -/
def iterBlockEvents (bs : List Block) : List IterEvent :=
  (bs.map blockEvents).flatten

/-- Claim C7: when a block's payload is truncated/corrupt, iteration
delivers every record decodable before the damage point, only then signals
Error(CorruptBlock), leaves all previously emitted records intact, and
still attempts all subsequent blocks — the corrupt block never aborts the
whole file. -/
theorem corrupt_block_partial_delivery (bs1 bs2 : List Block) (b : Block)
    (n : Nat) (hcorrupt : b.goodCount = some n) :
    iterBlockEvents (bs1 ++ b :: bs2) =
      iterBlockEvents bs1
        ++ ((b.records.take n).map IterEvent.emit
              ++ [IterEvent.fail FstError.corruptBlock])
        ++ iterBlockEvents bs2 := by
  unfold iterBlockEvents
  rw [List.map_append, List.flatten_append, List.map_cons, List.flatten_cons]
  have hb : blockEvents b =
      (b.records.take n).map IterEvent.emit
        ++ [IterEvent.fail FstError.corruptBlock] := by
    unfold blockEvents decodeBlock
    rw [hcorrupt]
  rw [hb]
  simp only [List.append_assoc]

/-- Witness for C7: a concrete three-block file whose middle block is
truncated after its first record. -/
theorem corrupt_block_partial_delivery_witness :
    iterBlockEvents
        ([⟨[⟨0, 1, "0"⟩], none⟩]
          ++ (⟨[⟨1, 1, "1"⟩, ⟨2, 1, "0"⟩], some 1⟩ : Block)
            :: [⟨[⟨3, 1, "1"⟩], none⟩]) =
      iterBlockEvents [⟨[⟨0, 1, "0"⟩], none⟩]
        ++ (((⟨[⟨1, 1, "1"⟩, ⟨2, 1, "0"⟩], some 1⟩ : Block).records.take 1).map
              IterEvent.emit
              ++ [IterEvent.fail FstError.corruptBlock])
        ++ iterBlockEvents [⟨[⟨3, 1, "1"⟩], none⟩] :=
  corrupt_block_partial_delivery [⟨[⟨0, 1, "0"⟩], none⟩]
    [⟨[⟨3, 1, "1"⟩], none⟩] ⟨[⟨1, 1, "1"⟩, ⟨2, 1, "0"⟩], some 1⟩ 1 rfl

/-- Modelled from the spec: `valueAtTime(handle, t) -> bytes |
Error(UnknownHandle | NoValueBefore(t))` — "return the most recent value
at or before t"; a point query before the signal's first recorded change
is "returned as error, not a default value".  The query time is an integer
so that querying before time 0 is expressible. -/
def valueAtTime (s : Session) (h : Handle) (t : Int) : Except FstError String :=
  if decide (1 ≤ h) && decide (h ≤ maxHandle s.file) then
    match ((iterBlocks s maskAll).filter fun r =>
        decide ((r.time : Int) ≤ t) && decide (r.handle = h)).getLast? with
    | some r => .ok r.value
    | none => .error (.noValueBefore t)
  else
    .error .unknownHandle

/-- Claim C5: on the file with a single variable (handle 1) changing at
times {0, 5, 10} to values "0", "1", "0", the point query at time 7
returns "1" (most recent value at or before 7) and the query at time -1
returns Error(NoValueBefore), not a default value. -/
theorem valueAtTime_scenario :
    openFile demoFile5 = .ok demoSession5 ∧
      valueAtTime demoSession5 1 7 = .ok "1" ∧
      valueAtTime demoSession5 1 (-1) = .error (.noValueBefore (-1)) :=
  ⟨rfl, rfl, rfl⟩

/-- Modelled from the spec: `iterateHier() -> next node | end` — a lazy,
restartable sequence over the hierarchy in original file order; pulling
returns the node at the internal cursor and advances the cursor. -/
def iterateHier (s : Session) : Option (HierTok × Session) :=
  match s.file.hier[s.hierCursor]? with
  | some tok => some (tok, { s with hierCursor := s.hierCursor + 1 })
  | none => none

/-- Modelled from the spec: `iterateHierRewind()` — "rewind resets the
internal cursor to the start without re-reading the file". -/
def iterateHierRewind (s : Session) : Session :=
  { s with hierCursor := 0 }

/-- Drive `iterateHier` to the end, collecting the pulled nodes.  The
hierarchy length bounds the number of pulls, so fuelled recursion with
that much fuel drains the whole sequence. -/
def drainGo : Nat → Session → List HierTok
  | 0, _ => []
  | Nat.succ n, s =>
    match iterateHier s with
    | none => []
    | some (t, s') => t :: drainGo n s'

/-- A full hierarchy iteration of the session, from its current cursor. -/
def drainHier (s : Session) : List HierTok :=
  drainGo s.file.hier.length s

/-- Draining with enough fuel yields exactly the hierarchy tokens from the
cursor position onwards. -/
theorem drainGo_eq_drop (n : Nat) : ∀ s : Session,
    s.file.hier.length - s.hierCursor ≤ n →
    drainGo n s = s.file.hier.drop s.hierCursor := by
  induction n with
  | zero =>
    intro s hle
    have hlen : s.file.hier.length ≤ s.hierCursor := by omega
    rw [drainGo, List.drop_eq_nil_of_le hlen]
  | succ n ih =>
    intro s hle
    rw [drainGo]
    unfold iterateHier
    cases hg : s.file.hier[s.hierCursor]? with
    | none =>
      have hlen : s.file.hier.length ≤ s.hierCursor :=
        List.getElem?_eq_none_iff.mp hg
      rw [List.drop_eq_nil_of_le hlen]
    | some t =>
      obtain ⟨hlt, hget⟩ := List.getElem?_eq_some_iff.mp hg
      have hdrop := List.drop_eq_getElem_cons (l := s.file.hier) hlt
      have hrec := ih { s with hierCursor := s.hierCursor + 1 } (by simp; omega)
      show t :: drainGo n { s with hierCursor := s.hierCursor + 1 }
          = s.file.hier.drop s.hierCursor
      rw [hdrop, hget, hrec]

/-- Claim C6: rewinding and then iterating the hierarchy to the end
reproduces exactly the node sequence of the first full iteration after
open, and rewind only resets the internal cursor — the file contents of
the session are untouched. -/
theorem rewind_reproduces_iteration (f : FstFile) (s0 s : Session)
    (hopen : openFile f = .ok s0) (hs : s.file = f) :
    drainHier (iterateHierRewind s) = drainHier s0 ∧
      (iterateHierRewind s).file = s.file := by
  obtain ⟨rfl, -, -, -, -⟩ := openFile_ok hopen
  constructor
  · have h1 : drainHier (iterateHierRewind s) =
        (iterateHierRewind s).file.hier.drop 0 :=
      drainGo_eq_drop _ _ (by omega)
    have h2 : drainHier (⟨f, 0⟩ : Session) =
        (⟨f, 0⟩ : Session).file.hier.drop 0 :=
      drainGo_eq_drop _ _ (by omega)
    rw [h1, h2]
    unfold iterateHierRewind
    rw [hs]
  · rfl

/-- Witness for C6 at the concrete demonstration file, rewinding from a
mid-iteration cursor. -/
theorem rewind_reproduces_iteration_witness :
    drainHier (iterateHierRewind ⟨demoFile5, 2⟩) = drainHier demoSession5 ∧
      (iterateHierRewind (⟨demoFile5, 2⟩ : Session)).file
        = (⟨demoFile5, 2⟩ : Session).file :=
  rewind_reproduces_iteration demoFile5 demoSession5 ⟨demoFile5, 2⟩
    (by rfl) rfl

/-- A demonstration file declaring 3 scopes and 5 variables (with the
matching 3 Upscope markers and dense handles 1..5). -/
def demoFile8 : FstFile :=
  { startTime := 0
    endTime := 4
    hier :=
      [.scope "top",
       .var ⟨"a", 1, 1⟩,
       .var ⟨"b", 8, 2⟩,
       .scope "u1",
       .var ⟨"c", 1, 3⟩,
       .var ⟨"d", 1, 4⟩,
       .upscope,
       .scope "u2",
       .var ⟨"e", 32, 5⟩,
       .upscope,
       .upscope]
    blocks := [⟨[⟨0, 1, "0"⟩, ⟨4, 2, "1"⟩], none⟩] }

/-- The session produced by opening `demoFile8`. -/
def demoSession8 : Session := ⟨demoFile8, 0⟩

example : openFile demoFile8 = .ok demoSession8 := by rfl

/-- Claim C8: a file declaring 3 scopes and 5 variables reports
`scopeCount() == 3` and `varCount() == 5`, and a full hierarchy iteration
yields exactly 3 Scope nodes and 5 Variable nodes, plus the matching 3
Upscope nodes. -/
theorem counts_scenario (f : FstFile) (s : Session)
    (hopen : openFile f = .ok s)
    (h3 : f.hier.countP isScopeTok = 3)
    (h5 : f.hier.countP isVarTok = 5) :
    scopeCount s = 3 ∧ varCount s = 5 ∧
      (drainHier s).countP isScopeTok = 3 ∧
      (drainHier s).countP isVarTok = 5 ∧
      (drainHier s).countP isUpscopeTok = 3 := by
  obtain ⟨rfl, -, -, -, hbal⟩ := openFile_ok hopen
  have hdrain : drainHier (⟨f, 0⟩ : Session) = f.hier := by
    have := drainGo_eq_drop (f.hier.length) (⟨f, 0⟩ : Session)
      (by show f.hier.length - 0 ≤ f.hier.length; omega)
    simpa [drainHier] using this
  unfold hierBalanced at hbal
  rw [decide_eq_true_eq] at hbal
  refine ⟨h3, h5, ?_, ?_, ?_⟩
  · rw [hdrain]; exact h3
  · rw [hdrain]; exact h5
  · rw [hdrain]; omega

/-- Witness for C8 at the concrete 3-scope, 5-variable file. -/
theorem counts_scenario_witness :
    scopeCount demoSession8 = 3 ∧ varCount demoSession8 = 5 ∧
      (drainHier demoSession8).countP isScopeTok = 3 ∧
      (drainHier demoSession8).countP isVarTok = 5 ∧
      (drainHier demoSession8).countP isUpscopeTok = 3 :=
  counts_scenario demoFile8 demoSession8 (by rfl) (by rfl) (by rfl)

/-- Embedded from src/libfst/test_fst_reader.cpp, `test_fst_reader`
(lines 37-216): open the file (returning false on failure), read metadata,
set the full process mask, iterate value changes counting callback
invocations, then accumulate `passed`: it is cleared when the metadata
variable count is zero, when no value changes were seen, or when
`end_time <= start_time`. -/
def test_fst_reader (f : FstFile) : Bool :=
  match openFile f with
  | .error _ => false
  | .ok s =>
    let metadataVarCount := varCount s
    let valueChangeCount := (iterBlocks s maskAll).length
    let passed0 := true
    let passed1 := if metadataVarCount = 0 then false else passed0
    let passed2 := if valueChangeCount = 0 then false else passed1
    let passed3 := if getEndTime s ≤ getStartTime s then false else passed2
    passed3

/-- Claim C9: `test_fst_reader` returns true iff the open succeeds, the
metadata variable count is nonzero, at least one value-change callback ran,
and end time is strictly greater than start time; in particular a file
whose end time equals its start time is reported FAILED. -/
theorem test_fst_reader_result (f : FstFile) :
    (test_fst_reader f = true ↔
      ∃ s, openFile f = .ok s ∧ varCount s ≠ 0 ∧
        (iterBlocks s maskAll).length ≠ 0 ∧ getStartTime s < getEndTime s) ∧
      (∀ s, openFile f = .ok s → getEndTime s = getStartTime s →
        test_fst_reader f = false) := by
  cases hcase : openFile f with
  | error e =>
    have hfalse : test_fst_reader f = false := by
      simp only [test_fst_reader, hcase]
    constructor
    · rw [hfalse]
      constructor
      · intro h; cases h
      · rintro ⟨s, hs, -⟩
        cases hs
    · intro s hs heq
      exact hfalse
  | ok s =>
    have hred : test_fst_reader f =
        (if varCount s = 0 then false
          else if (iterBlocks s maskAll).length = 0 then false
          else if getEndTime s ≤ getStartTime s then false else true) := by
      simp only [test_fst_reader, hcase]
      by_cases h1 : varCount s = 0 <;>
        by_cases h2 : (iterBlocks s maskAll).length = 0 <;>
        by_cases h3 : getEndTime s ≤ getStartTime s <;>
        simp [h1, h2, h3]
    constructor
    · rw [hred]
      constructor
      · intro hb
        by_cases h1 : varCount s = 0
        · rw [if_pos h1] at hb; cases hb
        rw [if_neg h1] at hb
        by_cases h2 : (iterBlocks s maskAll).length = 0
        · rw [if_pos h2] at hb; cases hb
        rw [if_neg h2] at hb
        by_cases h3 : getEndTime s ≤ getStartTime s
        · rw [if_pos h3] at hb; cases hb
        exact ⟨s, rfl, h1, h2, Nat.not_le.mp h3⟩
      · rintro ⟨s', hs', hv, hl, ht⟩
        have hss : s' = s := by
          injection hs' with h
          exact h.symm
        subst hss
        rw [if_neg hv, if_neg hl, if_neg (Nat.not_le.mpr ht)]
    · intro s' hs' heq
      have hss : s' = s := by
        injection hs' with h
        exact h.symm
      subst hss
      rw [hred, heq]
      simp

/-- A degenerate but well-formed file whose end time equals its start
time: it opens successfully, yet the harness must report FAILED. -/
def demoDegenerate : FstFile :=
  { startTime := 0
    endTime := 0
    hier := [.scope "top", .var ⟨"sig", 1, 1⟩, .upscope]
    blocks := [⟨[⟨0, 1, "0"⟩], none⟩] }

/-- Witness for C9: the degenerate equal-times file is reported FAILED and
the healthy demonstration file is reported PASSED. -/
theorem test_fst_reader_result_witness :
    test_fst_reader demoDegenerate = false ∧
      test_fst_reader demoFile5 = true :=
  ⟨(test_fst_reader_result demoDegenerate).2 ⟨demoDegenerate, 0⟩ (by rfl) rfl,
   (test_fst_reader_result demoFile5).1.mpr
     ⟨demoSession5, by rfl, by decide, by decide, by decide⟩⟩

/-- Embedded from src/libfst/test_fst_reader.cpp: the fstHier nodes seen by
the harness's hierarchy loop; scope and variable names are C strings that
may be NULL. -/
inductive HarnessNode where
  | scope (name : Option String)
  | var (name : Option String) (handle : Nat)
  | upscope
  | attrBegin
  | attrEnd
deriving DecidableEq

/-- Embedded from src/libfst/test_fst_reader.cpp (lines 79-104): the effect
of one iteration of the hierarchy loop on `current_depth` — incremented on
FST_HT_SCOPE when the scope name is non-null, decremented on
FST_HT_UPSCOPE only when strictly positive, unchanged otherwise.
`current_depth` is a C `int`, modelled as `Int`. -/
def stepDepth (d : Int) : HarnessNode → Int
  | .scope name =>
    match name with
    | some _ => d + 1
    | none => d
  | .upscope => if 0 < d then d - 1 else d
  | _ => d

/-- One loop iteration never drives a non-negative depth negative. -/
theorem stepDepth_nonneg {d : Int} (hd : 0 ≤ d) (n : HarnessNode) :
    0 ≤ stepDepth d n := by
  cases n with
  | scope name => cases name <;> simp only [stepDepth] <;> omega
  | var name handle => simpa only [stepDepth] using hd
  | upscope =>
    simp only [stepDepth]
    split <;> omega
  | attrBegin => simpa only [stepDepth] using hd
  | attrEnd => simpa only [stepDepth] using hd

/-- The depth stays non-negative along any fold of the loop body. -/
theorem foldl_stepDepth_nonneg (nodes : List HarnessNode) :
    ∀ d : Int, 0 ≤ d → 0 ≤ nodes.foldl stepDepth d := by
  induction nodes with
  | nil => intro d hd; simpa using hd
  | cons n t ih =>
    intro d hd
    rw [List.foldl_cons]
    exact ih _ (stepDepth_nonneg hd n)

/-- Claim C10: throughout the hierarchy-iteration loop of
`test_fst_reader`, for every possible node sequence and at every point of
the loop (after any number k of processed nodes), the `current_depth`
counter that starts at 0 is non-negative. -/
theorem current_depth_nonneg (nodes : List HarnessNode) :
    ∀ k : Nat, 0 ≤ (nodes.take k).foldl stepDepth 0 :=
  fun k => foldl_stepDepth_nonneg (nodes.take k) 0 le_rfl
